import Mathlib

/-!
Verification of the `pythion` source-tree indexer (`src/pythion/src/indexer.py`)
against its design specification.

The indexer parses Python files into `ast` trees, strips leading constant
expressions ("docstrings") from function/class definitions, stores the
`ast.unparse` text of each definition in a `dict[str, set[str]]` index, and
resolves per-symbol dependencies (bare-name call targets plus bare-name
parameter annotations).

The embedding below models the fragment of the Python AST that the indexer
manipulates, and each indexer operation as a pure Lean function.  Python's
in-place mutation (`node.body.pop(0)` inside `clean_function`) is modelled by
returning the post-call value of the mutated node: because `ast.NodeTransformer`
re-installs the returned (identical, mutated) object into the parent, the
caller's tree after a visit is exactly the transformed tree the visitor
returns.
-/

namespace Pythion

/-- Python constants (`ast.Constant`) restricted to the shapes the indexer's
behaviour can distinguish: string literals and (as a representative of every
non-string constant) integer literals.  `clean_function` tests only
`isinstance(node.body[0].value, ast.Constant)`, never the constant's kind. -/
inductive Const
  | str (s : String)
  | int (n : Int)

/-- Python expressions relevant to the indexer: bare names (`ast.Name`),
constants, attribute access (`ast.Attribute`) and calls (`ast.Call`). -/
inductive PyExpr
  | name (id : String)
  | const (c : Const)
  | attr (obj : PyExpr) (fieldName : String)
  | call (func : PyExpr) (callArgs : List PyExpr)

/-- A formal parameter (`ast.arg`): a name with an optional annotation
expression.  `NodeIndexer._get_args` recognises only annotations that are a
bare `ast.Name`. -/
structure Arg where
  argName : String
  annotation : Option PyExpr

/-- Python statements relevant to the indexer: expression statements
(`ast.Expr`), `return`, `pass`, and function / class definitions.  Bodies are
statement lists, so definitions nest. -/
inductive Stmt
  | expr (e : PyExpr)
  | ret (e : Option PyExpr)
  | passStmt
  | funcDef (defName : String) (args : List Arg) (body : List Stmt)
  | classDef (defName : String) (body : List Stmt)

/-- A module (`ast.Module`) is its list of top-level statements. -/
abbrev Module := List Stmt

/-! ## The definition normalizer (`NodeTransformer.clean_function` / `clean_class`)

`clean_function` pops `node.body[0]` when it is an `ast.Expr` statement whose
value is an `ast.Constant` — a constant of any kind, not only a string
literal.  The pop is `node.body.pop(0)`, an in-place list mutation; the
functions below return the post-mutation value of the node. -/

/-- The body after the leading `ast.Expr(ast.Constant)` pop applied by
`clean_function` and `clean_class`: remove the first statement when it is a
bare constant expression, otherwise keep the body unchanged. -/
def popLeadingConst : List Stmt → List Stmt
  | .expr (.const _) :: rest => rest
  | body => body

/-- `NodeTransformer.clean_function`: on a `FunctionDef` node, pop the leading
constant expression from the body (if any); any other node is returned
unchanged (`if not isinstance(node, ast.FunctionDef): return node`). -/
def cleanFunction : Stmt → Stmt
  | .funcDef n args body => .funcDef n args (popLeadingConst body)
  | s => s

mutual

/-- `NodeTransformer.clean_class`: on a `ClassDef` node, pop the leading
constant expression from the body (the first two match arms together are
`popLeadingConst`), then walk the popped body and clean every direct
`FunctionDef` child with `clean_function` and every direct `ClassDef` child
recursively with `clean_class` (the source rebinding `stmt = ...` still takes
effect because `clean_function` mutates the child in place); any other node is
returned unchanged. -/
def cleanClass : Stmt → Stmt
  | .classDef n (.expr (.const _) :: rest) => .classDef n (cleanClassChildren rest)
  | .classDef n body => .classDef n (cleanClassChildren body)
  | s => s

/-- The child-cleaning loop of `clean_class`. -/
def cleanClassChildren : List Stmt → List Stmt
  | [] => []
  | .funcDef n args body :: rest =>
      cleanFunction (.funcDef n args body) :: cleanClassChildren rest
  | .classDef n body :: rest =>
      cleanClass (.classDef n body) :: cleanClassChildren rest
  | s :: rest => s :: cleanClassChildren rest

end

/-! ## Canonical re-serialization (`ast.unparse`)

The indexer stores `ast.unparse(node)` for every visited definition.  The
unparser below produces the text `ast.unparse` produces on this AST fragment:
four-space indentation, `", "`-separated argument lists, a blank line before
every definition nested inside a body.  Known divergences, none of which any
settled statement serializes: string constants are emitted unescaped and in
single quotes (`ast.unparse` escapes, and uses triple quotes in docstring
position), and around a definition whose body is empty — a shape only the
docstring pop can produce, never the Python parser — the exact whitespace
differs. -/

/-- Indentation: four spaces per nesting level. -/
def pad (n : Nat) : String := String.mk (List.replicate (4 * n) ' ')

/-- Serialize a constant the way `ast.unparse` does. -/
def unparseConst : Const → String
  | .str s => "'" ++ s ++ "'"
  | .int n => toString n

mutual

def unparseExpr : PyExpr → String
  | .name id => id
  | .const c => unparseConst c
  | .attr obj fieldName => unparseExpr obj ++ "." ++ fieldName
  | .call f callArgs => unparseExpr f ++ "(" ++ unparseExprList callArgs ++ ")"

def unparseExprList : List PyExpr → String
  | [] => ""
  | [e] => unparseExpr e
  | e :: rest => unparseExpr e ++ ", " ++ unparseExprList rest

end

/-- Serialize one formal parameter (`x` or `x: T`). -/
def unparseArg (a : Arg) : String :=
  match a.annotation with
  | none => a.argName
  | some e => a.argName ++ ": " ++ unparseExpr e

def unparseArgList : List Arg → String
  | [] => ""
  | [a] => unparseArg a
  | a :: rest => unparseArg a ++ ", " ++ unparseArgList rest

/-- `ast.unparse` writes a blank line before a function or class definition
except at the very start of its output: a definition at the head of the
serialized node gets none, every definition inside a body gets one. -/
def defBlank : Stmt → String
  | .funcDef _ _ _ => "\n"
  | .classDef _ _ => "\n"
  | _ => ""

mutual

def unparseStmt (ind : Nat) : Stmt → String
  | .expr e => pad ind ++ unparseExpr e
  | .ret none => pad ind ++ "return"
  | .ret (some e) => pad ind ++ "return " ++ unparseExpr e
  | .passStmt => pad ind ++ "pass"
  | .funcDef n args body =>
      pad ind ++ "def " ++ n ++ "(" ++ unparseArgList args ++ "):\n" ++
        unparseBody (ind + 1) body
  | .classDef n body =>
      pad ind ++ "class " ++ n ++ ":\n" ++ unparseBody (ind + 1) body

def unparseBody (ind : Nat) : List Stmt → String
  | [] => ""
  | [s] => defBlank s ++ unparseStmt ind s
  | s :: rest => defBlank s ++ unparseStmt ind s ++ "\n" ++ unparseBody ind rest

end

/-- Top-level serialization of one definition, as stored in the index. -/
def unparseTop (s : Stmt) : String := unparseStmt 0 s

/-! ## The call-reference collector (`CallFinder`)

`CallFinder.visit_Call` records `node.func.id` only when `node.func` is an
`ast.Name`, and — crucially — it does not call `generic_visit`, so the
children of a `Call` node (its callee expression and its arguments) are never
traversed: a call nested inside another call is not collected.  All other
nodes are traversed by `generic_visit` (the `visit_FunctionDef` /
`visit_ClassDef` overrides just delegate to it). -/

/-- Call names collected from one expression, in traversal order (the source
accumulates them into a `set`; deduplication happens in `_get_call_tree`). -/
def callNamesExpr : PyExpr → List String
  | .name _ => []
  | .const _ => []
  | .attr obj _ => callNamesExpr obj
  | .call (.name id) _ => [id]
  | .call _ _ => []

mutual

/-- Call names collected by `CallFinder.visit` from one statement. -/
def callNamesStmt : Stmt → List String
  | .expr e => callNamesExpr e
  | .ret none => []
  | .ret (some e) => callNamesExpr e
  | .passStmt => []
  | .funcDef _ args body =>
      args.flatMap (fun a =>
        match a.annotation with
        | some e => callNamesExpr e
        | none => []) ++ callNamesBody body
  | .classDef _ body => callNamesBody body

def callNamesBody : List Stmt → List String
  | [] => []
  | s :: rest => callNamesStmt s ++ callNamesBody rest

end

/-! ## The symbol index

The source keeps `index: dict[str, set[str]]`, mapping a definition name to
the set of distinct `ast.unparse` texts stored under it.  The embedding keeps
the definition nodes themselves in an association list (insertion-ordered,
duplicate-free per key): `ast.unparse` is canonical and injective on this AST
fragment, so deduplicating by node equality is deduplicating by text equality,
and `ast.parse(stored_text)` in `get_dependencies` recovers exactly the stored
node — the embedding therefore reads the node back directly instead of
round-tripping through text, and produces text (`unparseTop`) exactly where
the source hands text onward. -/

abbrev Index := List (String × List Stmt)

/-- `self.index[name]` lookup (via `dict.get` — never inserts). -/
def lookupIndex (idx : Index) (n : String) : Option (List Stmt) :=
  match idx.find? (fun kv => kv.1 == n) with
  | some kv => some kv.2
  | none => none

/-- `self.index[node.name].add(ast.unparse(node))`: `defaultdict(set)` creates
the key on first use; the set holds `ast.unparse` texts, so `set.add` keeps
one copy per distinct serialized text. -/
def indexAdd (idx : Index) (n : String) (d : Stmt) : Index :=
  match idx with
  | [] => [(n, [d])]
  | (k, vs) :: rest =>
      if k == n then
        (k, if (vs.map unparseTop).contains (unparseTop d) then vs else vs ++ [d]) :: rest
      else (k, vs) :: indexAdd rest n d

/-! ## The node transformer (`NodeTransformer.visit_FunctionDef` / `visit_ClassDef`)

`visit_FunctionDef` runs `clean_function` (the in-place leading-constant pop),
then `generic_visit` (which recursively visits — cleans and indexes — every
nested definition, re-installing each returned node), then stores
`ast.unparse(node)` under `node.name`.  `visit_ClassDef` is identical with
`clean_class`.  `visitStmt`/`visitBody` below model ONE such transformer
visit: each definition in the visited subtree is popped once and indexed once,
innermost definitions first.  Two compounding effects are not modelled, both
visible only when a body stacks two or more leading constant expressions:
within one class visit, `clean_class` sweeps the direct children before
`generic_visit` re-cleans them, so such a member is popped twice in that
visit; and across `build_index` (below) the `ast.walk` loop re-visits every
node — a definition at depth `d` is visited once per ancestor-or-self yield,
popping one further stacked leading constant each time and indexing the
intermediate text.  No statement settled against the built index depends on
those extra pops or texts: the general ones use only which keys exist and the
non-emptiness of their entry sets, and every concrete input has at most one
leading constant per body, where one visit is exact. -/

mutual

/-- One `transformer.visit` step on a statement: returns the transformed
statement (which, by in-place mutation, is also what the caller's tree now
holds) together with the updated index. -/
def visitStmt : Stmt → Index → Stmt × Index
  | .funcDef n args (.expr (.const _) :: rest), idx =>
      let (body2, idx1) := visitBody rest idx
      let d := Stmt.funcDef n args body2
      (d, indexAdd idx1 n d)
  | .funcDef n args body, idx =>
      let (body2, idx1) := visitBody body idx
      let d := Stmt.funcDef n args body2
      (d, indexAdd idx1 n d)
  | .classDef n (.expr (.const _) :: rest), idx =>
      let (body2, idx1) := visitBody rest idx
      let c := Stmt.classDef n body2
      (c, indexAdd idx1 n c)
  | .classDef n body, idx =>
      let (body2, idx1) := visitBody body idx
      let c := Stmt.classDef n body2
      (c, indexAdd idx1 n c)
  | s, idx => (s, idx)

/-- `generic_visit` over a statement list (a definition body or a module). -/
def visitBody : List Stmt → Index → List Stmt × Index
  | [], idx => ([], idx)
  | s :: rest, idx =>
      let (s2, idx1) := visitStmt s idx
      let (rest2, idx2) := visitBody rest idx1
      (s2 :: rest2, idx2)

end

/-! ## The index builder (`NodeIndexer.__init__` / `build_index`) -/

/-- `NodeIndexer.__init__`: the ignore list starts as
`[".venv", ".mypy_cache"]` and caller-supplied folders are appended
(`extend`), never replacing the defaults. -/
def mkFoldersToIgnore (extra : Option (List String)) : List String :=
  match extra with
  | none => [".venv", ".mypy_cache"]
  | some l => [".venv", ".mypy_cache"] ++ l

/-- Substring test on character lists: Python `ext in root`. -/
def hasSubList (pat : List Char) : List Char → Bool
  | [] => pat.isEmpty
  | c :: rest => pat.isPrefixOf (c :: rest) || hasSubList pat rest

/-- Python `ext in root` on strings. -/
def strHasSub (hay pat : String) : Bool := hasSubList pat.data hay.data

/-- Python `file.endswith(".py")`. -/
def endsWithPy (s : String) : Bool := ".py".data.isSuffixOf s.data

/-- One file met by the `os.walk` loop in `build_index`: the directory path
(`root`), the file name, and the outcome of `ast.parse` on its text —
`none` models a file on which `ast.parse` raises `SyntaxError`.  (The
embedding receives files by their parse outcome; the Python parser itself is
not modelled.) -/
structure PyFile where
  root : String
  fileName : String
  content : Option Module

/-- The marker test of `build_index`: `for ext in self.folders_to_ignore:
if ext in root: break` — true when some ignore marker is a substring of the
directory path. -/
def markerHit (ignore : List String) (root : String) : Bool :=
  ignore.any (fun ext => strHasSub root ext)

/-- A file is skipped when an ignore marker matches its directory path, or
when its name does not end in `.py` (the `continue` in the `else:` branch). -/
def skipFile (ignore : List String) (f : PyFile) : Bool :=
  markerHit ignore f.root || !endsWithPy f.fileName

/-- `NodeIndexer._remove_common_syntax`: the fixed key list popped after the
walk. -/
def commonSyntax : List String :=
  ["__init__", "__enter__", "__exit__", "str", "dict", "list", "int", "float"]

/-- Drop the common-syntax keys from the index (`self.index.pop(syntax, None)`). -/
def removeCommonSyntax (idx : Index) : Index :=
  idx.filter (fun kv => !(commonSyntax.contains kv.1))

/-- The walk of `build_index` over the files, threading the index.  A
non-skipped `.py` file that fails to parse raises `SyntaxError` out of the
loop (there is no `try`/`except`), modelled as `Except.error`; only when every
eligible file parses does the walk reach `_remove_common_syntax` and
complete.  Per parsed file the model applies one transformer visit to the
module (`visitBody`); the re-visits of the real `ast.walk` loop add, for
definitions that stack several leading constants, further intermediate texts
under the same keys (see the transformer section) — they create no keys,
empty no entry set, and change nothing about skipping or error
propagation. -/
def buildIndexAux (ignore : List String) : List PyFile → Index → Except String Index
  | [], idx => .ok (removeCommonSyntax idx)
  | f :: rest, idx =>
      if skipFile ignore f then buildIndexAux ignore rest idx
      else
        match f.content with
        | none => .error (f.root ++ "/" ++ f.fileName)
        | some m => buildIndexAux ignore rest (visitBody m idx).2

/-- `NodeIndexer.build_index`, started from the empty index as `__init__`
does. -/
def buildIndex (extra : Option (List String)) (fs : List PyFile) : Except String Index :=
  buildIndexAux (mkFoldersToIgnore extra) fs []

/-- `NodeIndexer.warn`: the duplicate names it would report — every key whose
value set holds more than one entry (an empty result prints nothing). -/
def warnDuplicates (idx : Index) : List String :=
  (idx.filter (fun kv => kv.2.length > 1)).map (fun kv => kv.1)

/-! ## The dependency resolver (`NodeIndexer.get_dependencies`) -/

/-- `NodeIndexer._get_call_tree`: the deduplicated call names of one
definition (`call_names` is a `set`; `list(call_names)` reads it out). -/
def getCallTree (d : Stmt) : List String := (callNamesStmt d).dedup

/-- `NodeIndexer._get_args`: `None` unless the node is a `FunctionDef`;
otherwise the deduplicated bare-`Name` annotations of the direct parameters
(`arg_types` is a `set`). -/
def getArgs (d : Stmt) : Option (List String) :=
  match d with
  | .funcDef _ args _ =>
      some ((args.filterMap (fun a =>
        match a.annotation with
        | some (.name id) => some id
        | _ => none)).dedup)
  | _ => none

/-- Python `x[:3000]`: the first 3000 characters. -/
def truncate3000 (s : String) : String := String.mk (s.data.take 3000)

/-- The three observable outcomes of `get_dependencies`: the not-found signal
(`return None`), the `IndentationError`/`SyntaxError` that
`ast.parse(list(func)[0])` raises out of the function (no handler), and a
returned list. -/
inductive DepResult
  | notFound
  | parseError
  | deps (l : List String)

mutual

/-- Whether the stored text of a definition re-parses.  `ast.unparse` of a
definition whose (cleaned) body is empty emits a `def`/`class` header with no
indented block — a shape only the docstring pop can produce — and `ast.parse`
then raises `IndentationError`.  On this fragment the stored text re-parses
exactly when every definition inside the stored node has a non-empty body,
and re-parsing then recovers the stored node structurally. -/
def reparses : Stmt → Bool
  | .funcDef _ _ body => !body.isEmpty && reparsesBody body
  | .classDef _ body => !body.isEmpty && reparsesBody body
  | _ => true

def reparsesBody : List Stmt → Bool
  | [] => true
  | s :: rest => reparses s && reparsesBody rest

end

/-- The returned list of a `DepResult`, empty for the other outcomes. -/
def depsListOf : DepResult → List String
  | .deps l => l
  | _ => []

/-- `NodeIndexer.get_dependencies`.  `self.index.get(func_name)` is `None` for
an absent key; `if not func` also treats an empty set as not found.
`ast.parse(list(func)[0])` re-parses one stored text: when the stored
definition does not re-parse (see `reparses`) the exception propagates out of
`get_dependencies`; when it does, the embedding reads the stored node back
directly (re-parsing is the structural identity there — see the index section
above), mirroring `list(func)[0]` as the head of the stored list.  The loop
`for dep in chain(call_names, arg_types or []): if dep in self.index:
dependencies.extend(list(self.index[dep]))` appends the stored texts, and
`[x[:3000] for x in dependencies]` truncates each. -/
def getDependencies (idx : Index) (funcName : String) : DepResult :=
  match lookupIndex idx funcName with
  | none => .notFound
  | some [] => .notFound
  | some (d :: _) =>
      if reparses d then
        let callNames := getCallTree d
        let argTypes := (getArgs d).getD []
        let dependencies := (callNames ++ argTypes).flatMap (fun dep =>
          match lookupIndex idx dep with
          | some vs => vs.map unparseTop
          | none => [])
        .deps (dependencies.map truncate3000)
      else .parseError

/-! ## Spec-side definitions

The data model the specification describes (an `IndexedSymbol` carrying
`has_doc`) is not produced by the indexer under `src/`: `core_models.py`
declares `SourceCode.has_docstring` and `doc_writer.py` reads
`v.has_docstring` off index values, but the indexer in `src/` stores plain
strings and records no flag, so the code that would set it is absent from
`src/`.  The flag is therefore modelled from the specification. -/

/-- Python `str.strip()` on the underlying character list: drop whitespace
from both ends. -/
def trimChars (l : List Char) : List Char :=
  ((l.dropWhile Char.isWhitespace).reverse.dropWhile Char.isWhitespace).reverse

/-- Python `str.strip()`. -/
def pyTrim (s : String) : String := String.mk (trimChars s.data)

/-- Modelled from the spec: the `has_doc` flag of an indexed definition.  The
recording code is missing from `src/` (only the `SourceCode.has_docstring`
declaration and its consumers exist there); the spec says: if the first
statement in the body is a bare string-literal expression, record
`hadDoc = len(trimmed string) > 1`, otherwise `hadDoc = false`. -/
def hasDocModel : Stmt → Bool
  | .funcDef _ _ (.expr (.const (.str s)) :: _) => decide (1 < (pyTrim s).length)
  | .classDef _ (.expr (.const (.str s)) :: _) => decide (1 < (pyTrim s).length)
  | _ => false

/-- Follows the spec, for comparison with the code: a definition carries a
leading documentation string when the first statement of its body is a bare
string-literal expression (spec glossary: "a leading string-literal statement
inside a definition's body"). -/
def specHasLeadingDocString : Stmt → Bool
  | .funcDef _ _ (.expr (.const (.str _)) :: _) => true
  | .classDef _ (.expr (.const (.str _)) :: _) => true
  | _ => false

/-- The head of a body is not a bare constant expression — nothing for
`clean_function` to pop. -/
def headNotConst : List Stmt → Bool
  | .expr (.const _) :: _ => false
  | _ => true

mutual

/-- A statement is fully normalized: no definition in it, at any depth, still
carries a leading constant expression. -/
def fullyCleanStmt : Stmt → Bool
  | .funcDef _ _ body => headNotConst body && fullyCleanBody body
  | .classDef _ body => headNotConst body && fullyCleanBody body
  | _ => true

def fullyCleanBody : List Stmt → Bool
  | [] => true
  | s :: rest => fullyCleanStmt s && fullyCleanBody rest

end

/-- Body length of a definition (used to observe that a pop changed a node). -/
def stmtBodyLen : Stmt → Nat
  | .funcDef _ _ body => body.length
  | .classDef _ body => body.length
  | _ => 0

/-! ## Concrete programs used by the claims -/

/-- `def helper(): return 1` -/
def helperDef : Stmt := .funcDef "helper" [] [.ret (some (.const (.int 1)))]

/-- `def main(): return helper()` -/
def mainDef : Stmt := .funcDef "main" [] [.ret (some (.call (.name "helper") []))]

/-- `a.py` containing `helper` and `main`. -/
def fileA : PyFile := ⟨"proj", "a.py", some [helperDef, mainDef]⟩

/-- The index built from `fileA` alone. -/
def exIdx : Index := [("helper", [helperDef]), ("main", [mainDef])]

/-- `def shared(): pass` -/
def sharedDef : Stmt := .funcDef "shared" [] [.passStmt]

/-- Two distinct files each holding `def shared(): pass`. -/
def fileShared1 : PyFile := ⟨"proj", "one.py", some [sharedDef]⟩

def fileShared2 : PyFile := ⟨"proj/sub", "two.py", some [sharedDef]⟩

/-- A parseable file next to a malformed one. -/
def goodFile : PyFile := ⟨"proj", "good.py", some [helperDef]⟩

/-- A file on which `ast.parse` raises `SyntaxError`. -/
def badFile : PyFile := ⟨"proj", "bad.py", none⟩

/-- `def f(): 5; return 1` — the first body statement is a constant that is
not a string literal. -/
def leadingIntDef : Stmt :=
  .funcDef "f" [] [.expr (.const (.int 5)), .ret (some (.const (.int 1)))]

/-- `def g(): 6; return` — likewise, with a different leading constant. -/
def leadingIntDefB : Stmt :=
  .funcDef "g" [] [.expr (.const (.int 6)), .ret none]

/-- A module whose single definition carries a documentation string. -/
def docModule : Module :=
  [.funcDef "f" [] [.expr (.const (.str "docstring")), .ret none]]

/-- `def loop(): return loop()` — a recursive function. -/
def loopDef : Stmt := .funcDef "loop" [] [.ret (some (.call (.name "loop") []))]

/-- The index holding only `loop`. -/
def loopIdx : Index := [("loop", [loopDef])]

/-- `def alone(): pass` — a definition that calls nothing and has no annotated
parameters. -/
def aloneDef : Stmt := .funcDef "alone" [] [.passStmt]

/-- A file holding only `alone`. -/
def fileAlone : PyFile := ⟨"proj", "alone.py", some [aloneDef]⟩

/-- `def Helper(): return 1` -/
def helperUpDef : Stmt := .funcDef "Helper" [] [.ret (some (.const (.int 1)))]

/-- `def f(x: Helper): "doc"` — an annotated parameter and a docstring-only
body. -/
def fAnnDef : Stmt :=
  .funcDef "f" [⟨"x", some (.name "Helper")⟩] [.expr (.const (.str "doc"))]

/-- The stored form of `fAnnDef`: the docstring pop leaves an empty body, so
its text `def f(x: Helper):` does not re-parse. -/
def fAnnStored : Stmt := .funcDef "f" [⟨"x", some (.name "Helper")⟩] []

/-- A file holding `Helper` and `f`. -/
def fileAnn : PyFile := ⟨"proj", "ann.py", some [helperUpDef, fAnnDef]⟩

/-- The index built from `fileAnn`. -/
def annIdx : Index := [("Helper", [helperUpDef]), ("f", [fAnnStored])]

/-- `def f(): "docstring"` — a docstring-only definition. -/
def docOnlyDef : Stmt := .funcDef "f" [] [.expr (.const (.str "docstring"))]

/-- The stored form of `docOnlyDef`: empty body, text `def f():`. -/
def docOnlyStored : Stmt := .funcDef "f" [] []

/-- A file holding only `docOnlyDef`. -/
def fileDocOnly : PyFile := ⟨"proj", "doconly.py", some [docOnlyDef]⟩

/-- The index built from `fileDocOnly`. -/
def docOnlyIdx : Index := [("f", [docOnlyStored])]

/-- `def inner(): "doc"` — a docstring-only nested definition. -/
def innerDocDef : Stmt := .funcDef "inner" [] [.expr (.const (.str "doc"))]

/-- `def outer():` holding `inner` and `return outer()` — a recursive
function with a nested docstring-only definition. -/
def outerDef : Stmt :=
  .funcDef "outer" [] [innerDocDef, .ret (some (.call (.name "outer") []))]

/-- The stored form of `inner`: empty body. -/
def innerStored : Stmt := .funcDef "inner" [] []

/-- The stored form of `outer`: still recursive, but its nested `inner` has
an empty body, so the stored text does not re-parse. -/
def outerStored : Stmt :=
  .funcDef "outer" [] [innerStored, .ret (some (.call (.name "outer") []))]

/-- A file holding only `outer` (with `inner` nested in it). -/
def fileOuter : PyFile := ⟨"proj", "outer.py", some [outerDef]⟩

/-- The index built from `fileOuter`. -/
def outerIdx : Index := [("inner", [innerStored]), ("outer", [outerStored])]

/-- Well-formedness of the index: every present key maps to a non-empty entry
set (`defaultdict(set)` creates a key only to immediately `add` to it, and
`_remove_common_syntax` pops whole keys). -/
def indexWF (idx : Index) : Prop := ∀ kv ∈ idx, kv.2 ≠ []

/-! ## Equation lemmas

The definition bodies of `visitStmt`, `deepCleanStmt` and `cleanClass` split
the leading-constant pop into two match arms for structural recursion; the
lemmas below restate each in terms of `popLeadingConst` by exhausting the
possible body heads. -/

theorem visitStmt_funcDef (n : String) (args : List Arg) (body : List Stmt)
    (idx : Index) :
    visitStmt (.funcDef n args body) idx =
      ((.funcDef n args (visitBody (popLeadingConst body) idx).1),
        indexAdd (visitBody (popLeadingConst body) idx).2 n
          (.funcDef n args (visitBody (popLeadingConst body) idx).1)) := by
  match body with
  | [] => rfl
  | .expr (.const _) :: _ => rfl
  | .expr (.name _) :: _ => rfl
  | .expr (.attr _ _) :: _ => rfl
  | .expr (.call _ _) :: _ => rfl
  | .ret _ :: _ => rfl
  | .passStmt :: _ => rfl
  | .funcDef _ _ _ :: _ => rfl
  | .classDef _ _ :: _ => rfl

theorem visitStmt_classDef (n : String) (body : List Stmt) (idx : Index) :
    visitStmt (.classDef n body) idx =
      ((.classDef n (visitBody (popLeadingConst body) idx).1),
        indexAdd (visitBody (popLeadingConst body) idx).2 n
          (.classDef n (visitBody (popLeadingConst body) idx).1)) := by
  match body with
  | [] => rfl
  | .expr (.const _) :: _ => rfl
  | .expr (.name _) :: _ => rfl
  | .expr (.attr _ _) :: _ => rfl
  | .expr (.call _ _) :: _ => rfl
  | .ret _ :: _ => rfl
  | .passStmt :: _ => rfl
  | .funcDef _ _ _ :: _ => rfl
  | .classDef _ _ :: _ => rfl

theorem cleanClass_classDef (n : String) (body : List Stmt) :
    cleanClass (.classDef n body) =
      .classDef n (cleanClassChildren (popLeadingConst body)) := by
  match body with
  | [] => rfl
  | .expr (.const _) :: _ => rfl
  | .expr (.name _) :: _ => rfl
  | .expr (.attr _ _) :: _ => rfl
  | .expr (.call _ _) :: _ => rfl
  | .ret _ :: _ => rfl
  | .passStmt :: _ => rfl
  | .funcDef _ _ _ :: _ => rfl
  | .classDef _ _ :: _ => rfl

/-! ## Size of a popped body (termination measure support) -/

theorem sizeOf_popLeadingConst (b : List Stmt) :
    sizeOf (popLeadingConst b) ≤ sizeOf b := by
  cases b with
  | nil => simp [popLeadingConst]
  | cons s rest =>
      cases s with
      | expr e =>
          cases e with
          | const c => simp [popLeadingConst]
          | name id => simp [popLeadingConst]
          | attr o f => simp [popLeadingConst]
          | call f a => simp [popLeadingConst]
      | ret e => simp [popLeadingConst]
      | passStmt => simp [popLeadingConst]
      | funcDef n args body => simp [popLeadingConst]
      | classDef n body => simp [popLeadingConst]

/-! ## The built index has no empty entry sets -/

theorem indexAdd_wf (idx : Index) (n : String) (d : Stmt) (h : indexWF idx) :
    indexWF (indexAdd idx n d) := by
  induction idx with
  | nil =>
      intro kv hkv
      simp [indexAdd] at hkv
      simp [hkv]
  | cons kv0 rest ih =>
      obtain ⟨k, vs⟩ := kv0
      intro kv hkv
      simp only [indexAdd] at hkv
      by_cases hk : (k == n) = true
      · rw [if_pos hk] at hkv
        rcases List.mem_cons.mp hkv with h1 | h1
        · subst h1
          have hvs : vs ≠ [] := h (k, vs) (List.mem_cons_self _ _)
          show (if _ then vs else vs ++ [d]) ≠ []
          split
          · exact hvs
          · simp
        · exact h kv (List.mem_cons_of_mem _ h1)
      · rw [if_neg hk] at hkv
        rcases List.mem_cons.mp hkv with h1 | h1
        · subst h1
          exact h (k, vs) (List.mem_cons_self _ _)
        · exact ih (fun kv2 hkv2 => h kv2 (List.mem_cons_of_mem _ hkv2)) kv h1

mutual

theorem visitStmt_wf (s : Stmt) (idx : Index) (h : indexWF idx) :
    indexWF (visitStmt s idx).2 := by
  cases s with
  | funcDef n args body =>
      rw [visitStmt_funcDef]
      exact indexAdd_wf _ _ _ (visitBody_wf (popLeadingConst body) idx h)
  | classDef n body =>
      rw [visitStmt_classDef]
      exact indexAdd_wf _ _ _ (visitBody_wf (popLeadingConst body) idx h)
  | expr e => exact h
  | ret e => exact h
  | passStmt => exact h
termination_by sizeOf s
decreasing_by
  all_goals
    have h1 := sizeOf_popLeadingConst body
    simp
    omega

theorem visitBody_wf (b : List Stmt) (idx : Index) (h : indexWF idx) :
    indexWF (visitBody b idx).2 := by
  cases b with
  | nil => exact h
  | cons s rest =>
      show indexWF (visitBody (s :: rest) idx).2
      simp only [visitBody]
      exact visitBody_wf rest (visitStmt s idx).2 (visitStmt_wf s idx h)
termination_by sizeOf b
decreasing_by
  all_goals simp
  all_goals omega

end

theorem removeCommonSyntax_wf (idx : Index) (h : indexWF idx) :
    indexWF (removeCommonSyntax idx) := by
  intro kv hkv
  exact h kv (List.mem_of_mem_filter hkv)

theorem buildIndexAux_wf (ignore : List String) (fs : List PyFile) :
    ∀ (idx out : Index), indexWF idx → buildIndexAux ignore fs idx = .ok out →
      indexWF out := by
  induction fs with
  | nil =>
      intro idx out h hok
      simp only [buildIndexAux] at hok
      cases hok
      exact removeCommonSyntax_wf idx h
  | cons f rest ih =>
      intro idx out h hok
      simp only [buildIndexAux] at hok
      by_cases hs : skipFile ignore f = true
      · rw [if_pos hs] at hok
        exact ih idx out h hok
      · rw [if_neg hs] at hok
        cases hc : f.content with
        | none => rw [hc] at hok; cases hok
        | some m =>
            rw [hc] at hok
            exact ih _ out (visitBody_wf m idx h) hok

theorem buildIndex_wf (extra : Option (List String)) (fs : List PyFile)
    (idx : Index) (h : buildIndex extra fs = .ok idx) : indexWF idx :=
  buildIndexAux_wf (mkFoldersToIgnore extra) fs [] idx (by intro kv hkv; cases hkv) h

/-- A successful lookup returns an entry of the index. -/
theorem lookupIndex_mem (idx : Index) (n : String) (vs : List Stmt)
    (h : lookupIndex idx n = some vs) : ∃ k, (k, vs) ∈ idx := by
  unfold lookupIndex at h
  cases hf : idx.find? (fun kv => kv.1 == n) with
  | none => rw [hf] at h; cases h
  | some kv =>
      rw [hf] at h
      cases h
      exact ⟨kv.1, by simpa using List.mem_of_find?_eq_some hf⟩

/-! ## Walk lemmas -/

/-- Files whose directory path matches an ignore marker are invisible to the
walk: removing them from the file list does not change the build result. -/
theorem buildIndexAux_filter_markers (ignore : List String) (fs : List PyFile) :
    ∀ idx, buildIndexAux ignore fs idx =
      buildIndexAux ignore (fs.filter (fun f => !markerHit ignore f.root)) idx := by
  induction fs with
  | nil => intro idx; rfl
  | cons f rest ih =>
      intro idx
      by_cases hm : markerHit ignore f.root = true
      · have hsk : skipFile ignore f = true := by simp [skipFile, hm]
        have hfil : (f :: rest).filter (fun f => !markerHit ignore f.root) =
            rest.filter (fun f => !markerHit ignore f.root) := by
          simp [List.filter_cons, hm]
        rw [hfil]
        show buildIndexAux ignore (f :: rest) idx = _
        simp only [buildIndexAux, hsk, if_true]
        exact ih idx
      · have hfil : (f :: rest).filter (fun f => !markerHit ignore f.root) =
            f :: rest.filter (fun f => !markerHit ignore f.root) := by
          simp [List.filter_cons, hm]
        rw [hfil]
        show buildIndexAux ignore (f :: rest) idx =
          buildIndexAux ignore (f :: rest.filter (fun f => !markerHit ignore f.root)) idx
        simp only [buildIndexAux]
        by_cases hs : skipFile ignore f = true
        · simp only [hs, if_true]
          exact ih idx
        · simp only [hs, if_false, Bool.false_eq_true]
          cases hc : f.content with
          | none => rfl
          | some m => exact ih _

/-- The walk fails (the `SyntaxError` of `ast.parse` propagates) exactly when
some file that is neither marker-skipped nor extension-skipped is
unparseable. -/
theorem buildIndexAux_error_iff (ignore : List String) (fs : List PyFile) :
    ∀ idx, (∃ e, buildIndexAux ignore fs idx = .error e) ↔
      ∃ f ∈ fs, skipFile ignore f = false ∧ f.content = none := by
  induction fs with
  | nil =>
      intro idx
      constructor
      · rintro ⟨e, he⟩
        simp only [buildIndexAux] at he
        cases he
      · rintro ⟨f, hf, -⟩
        cases hf
  | cons f rest ih =>
      intro idx
      by_cases hs : skipFile ignore f = true
      · show (∃ e, buildIndexAux ignore (f :: rest) idx = .error e) ↔ _
        simp only [buildIndexAux, hs, if_true]
        rw [ih idx]
        constructor
        · rintro ⟨g, hg, h1, h2⟩
          exact ⟨g, List.mem_cons_of_mem _ hg, h1, h2⟩
        · rintro ⟨g, hg, h1, h2⟩
          rcases List.mem_cons.mp hg with rfl | hg2
          · rw [hs] at h1; cases h1
          · exact ⟨g, hg2, h1, h2⟩
      · show (∃ e, buildIndexAux ignore (f :: rest) idx = .error e) ↔ _
        simp only [buildIndexAux, hs, if_false, Bool.false_eq_true]
        cases hc : f.content with
        | none =>
            constructor
            · intro _
              exact ⟨f, List.mem_cons_self _ _,
                Bool.eq_false_iff.mpr hs, hc⟩
            · intro _
              exact ⟨f.root ++ "/" ++ f.fileName, rfl⟩
        | some m =>
            rw [ih ((visitBody m idx).2)]
            constructor
            · rintro ⟨g, hg, h1, h2⟩
              exact ⟨g, List.mem_cons_of_mem _ hg, h1, h2⟩
            · rintro ⟨g, hg, h1, h2⟩
              rcases List.mem_cons.mp hg with rfl | hg2
              · rw [hc] at h2; cases h2
              · exact ⟨g, hg2, h1, h2⟩

/-! ## Fully normalized definitions are fixed points of the cleaners -/

theorem popLeadingConst_of_headNotConst (b : List Stmt)
    (h : headNotConst b = true) : popLeadingConst b = b := by
  cases b with
  | nil => rfl
  | cons s rest =>
      cases s with
      | expr e =>
          cases e with
          | const c => simp [headNotConst] at h
          | name id => rfl
          | attr o f => rfl
          | call f a => rfl
      | ret e => rfl
      | passStmt => rfl
      | funcDef n args body => rfl
      | classDef n body => rfl

theorem cleanFunction_of_headNotConst (n : String) (args : List Arg)
    (body : List Stmt) (h : headNotConst body = true) :
    cleanFunction (.funcDef n args body) = .funcDef n args body := by
  show Stmt.funcDef n args (popLeadingConst body) = _
  rw [popLeadingConst_of_headNotConst body h]

mutual

theorem cleanClass_fullyClean :
    ∀ (s : Stmt), fullyCleanStmt s = true → cleanClass s = s
  | .classDef n body, h => by
      have h1 : headNotConst body = true ∧ fullyCleanBody body = true := by
        simpa [fullyCleanStmt, Bool.and_eq_true] using h
      rw [cleanClass_classDef, popLeadingConst_of_headNotConst body h1.1,
        cleanClassChildren_fullyClean body h1.2]
  | .funcDef n args body, _ => rfl
  | .expr e, _ => rfl
  | .ret e, _ => rfl
  | .passStmt, _ => rfl

theorem cleanClassChildren_fullyClean :
    ∀ (b : List Stmt), fullyCleanBody b = true → cleanClassChildren b = b
  | [], _ => rfl
  | .funcDef n args body :: rest, h => by
      have h1 : fullyCleanStmt (.funcDef n args body) = true ∧
          fullyCleanBody rest = true := by
        simpa [fullyCleanBody, Bool.and_eq_true] using h
      have h2 : headNotConst body = true := by
        have := h1.1
        simp only [fullyCleanStmt, Bool.and_eq_true] at this
        exact this.1
      show cleanFunction (.funcDef n args body) :: cleanClassChildren rest = _
      rw [cleanFunction_of_headNotConst n args body h2,
        cleanClassChildren_fullyClean rest h1.2]
  | .classDef n body :: rest, h => by
      have h1 : fullyCleanStmt (.classDef n body) = true ∧
          fullyCleanBody rest = true := by
        simpa [fullyCleanBody, Bool.and_eq_true] using h
      show cleanClass (.classDef n body) :: cleanClassChildren rest = _
      rw [cleanClass_fullyClean (.classDef n body) h1.1,
        cleanClassChildren_fullyClean rest h1.2]
  | .expr e :: rest, h => by
      have h1 : fullyCleanBody rest = true := by
        simpa [fullyCleanBody, fullyCleanStmt, Bool.and_eq_true] using h
      show (Stmt.expr e) :: cleanClassChildren rest = _
      rw [cleanClassChildren_fullyClean rest h1]
  | .ret e :: rest, h => by
      have h1 : fullyCleanBody rest = true := by
        simpa [fullyCleanBody, fullyCleanStmt, Bool.and_eq_true] using h
      show (Stmt.ret e) :: cleanClassChildren rest = _
      rw [cleanClassChildren_fullyClean rest h1]
  | .passStmt :: rest, h => by
      have h1 : fullyCleanBody rest = true := by
        simpa [fullyCleanBody, fullyCleanStmt, Bool.and_eq_true] using h
      show Stmt.passStmt :: cleanClassChildren rest = _
      rw [cleanClassChildren_fullyClean rest h1]

end

/-! ## Dependency-resolver lemmas -/

/-- Reduction of `get_dependencies` once the lookup is known to hit a
non-empty entry set. -/
theorem getDependencies_eq_of_lookup (idx : Index) (funcName : String)
    (d : Stmt) (rest : List Stmt)
    (h : lookupIndex idx funcName = some (d :: rest)) :
    getDependencies idx funcName =
      if reparses d then
        .deps (((getCallTree d ++ (getArgs d).getD []).flatMap (fun dep =>
          match lookupIndex idx dep with
          | some vs => vs.map unparseTop
          | none => [])).map truncate3000)
      else .parseError := by
  unfold getDependencies
  rw [h]

/-- Whatever one stored entry of a looked-up dependency serializes to appears
(truncated) in the result of `get_dependencies`, provided the stored head
entry re-parses. -/
theorem getDependencies_mem_of_dep (idx : Index) (funcName : String) (d : Stmt)
    (rest : List Stmt) (h : lookupIndex idx funcName = some (d :: rest))
    (hrp : reparses d = true)
    (dep : String) (hdep : dep ∈ getCallTree d ++ (getArgs d).getD [])
    (vs : List Stmt) (hvs : lookupIndex idx dep = some vs) (v : Stmt)
    (hv : v ∈ vs) :
    truncate3000 (unparseTop v) ∈ depsListOf (getDependencies idx funcName) := by
  rw [getDependencies_eq_of_lookup idx funcName d rest h, if_pos hrp]
  show truncate3000 (unparseTop v) ∈
    ((getCallTree d ++ (getArgs d).getD []).flatMap (fun dep2 =>
      match lookupIndex idx dep2 with
      | some vs2 => vs2.map unparseTop
      | none => [])).map truncate3000
  refine List.mem_map.mpr ⟨unparseTop v, ?_, rfl⟩
  refine List.mem_flatMap.mpr ⟨dep, hdep, ?_⟩
  rw [hvs]
  exact List.mem_map.mpr ⟨v, hv, rfl⟩

/-- When no chained dependency name is an index key, nothing is collected. -/
theorem flatMap_nil_of_lookup_none (idx : Index) (l : List String)
    (h : ∀ dep ∈ l, lookupIndex idx dep = none) :
    (l.flatMap (fun dep =>
      match lookupIndex idx dep with
      | some vs => vs.map unparseTop
      | none => [])) = ([] : List String) := by
  induction l with
  | nil => rfl
  | cons x xs ih =>
      rw [List.flatMap_cons]
      rw [h x (List.mem_cons_self _ _)]
      exact ih (fun dep hd => h dep (List.mem_cons_of_mem _ hd))

/-! ## The modelled doc flag, characterized -/

theorem hasDocModel_funcDef_iff (n : String) (args : List Arg)
    (body : List Stmt) :
    hasDocModel (.funcDef n args body) = true ↔
      ∃ s rest, body = .expr (.const (.str s)) :: rest ∧
        1 < (pyTrim s).length := by
  cases body with
  | nil => simp [hasDocModel]
  | cons s0 rest0 =>
      cases s0 with
      | expr e =>
          cases e with
          | const c =>
              cases c with
              | str s =>
                  simp only [hasDocModel, decide_eq_true_eq]
                  constructor
                  · intro hlen
                    exact ⟨s, rest0, rfl, hlen⟩
                  · rintro ⟨s2, rest2, heq, hlen⟩
                    simp only [List.cons.injEq, Stmt.expr.injEq,
                      PyExpr.const.injEq, Const.str.injEq] at heq
                    rw [heq.1]
                    exact hlen
              | int k =>
                  simp only [hasDocModel]
                  constructor
                  · intro hfalse
                    cases hfalse
                  · rintro ⟨s2, rest2, heq, -⟩
                    simp at heq
          | name id =>
              simp only [hasDocModel]
              constructor
              · intro hfalse; cases hfalse
              · rintro ⟨s2, rest2, heq, -⟩; simp at heq
          | attr o f =>
              simp only [hasDocModel]
              constructor
              · intro hfalse; cases hfalse
              · rintro ⟨s2, rest2, heq, -⟩; simp at heq
          | call f a =>
              simp only [hasDocModel]
              constructor
              · intro hfalse; cases hfalse
              · rintro ⟨s2, rest2, heq, -⟩; simp at heq
      | ret e =>
          simp only [hasDocModel]
          constructor
          · intro hfalse; cases hfalse
          · rintro ⟨s2, rest2, heq, -⟩; simp at heq
      | passStmt =>
          simp only [hasDocModel]
          constructor
          · intro hfalse; cases hfalse
          · rintro ⟨s2, rest2, heq, -⟩; simp at heq
      | funcDef n2 args2 body2 =>
          simp only [hasDocModel]
          constructor
          · intro hfalse; cases hfalse
          · rintro ⟨s2, rest2, heq, -⟩; simp at heq
      | classDef n2 body2 =>
          simp only [hasDocModel]
          constructor
          · intro hfalse; cases hfalse
          · rintro ⟨s2, rest2, heq, -⟩; simp at heq

theorem hasDocModel_classDef_iff (n : String) (body : List Stmt) :
    hasDocModel (.classDef n body) = true ↔
      ∃ s rest, body = .expr (.const (.str s)) :: rest ∧
        1 < (pyTrim s).length := by
  cases body with
  | nil => simp [hasDocModel]
  | cons s0 rest0 =>
      cases s0 with
      | expr e =>
          cases e with
          | const c =>
              cases c with
              | str s =>
                  simp only [hasDocModel, decide_eq_true_eq]
                  constructor
                  · intro hlen
                    exact ⟨s, rest0, rfl, hlen⟩
                  · rintro ⟨s2, rest2, heq, hlen⟩
                    simp only [List.cons.injEq, Stmt.expr.injEq,
                      PyExpr.const.injEq, Const.str.injEq] at heq
                    rw [heq.1]
                    exact hlen
              | int k =>
                  simp only [hasDocModel]
                  constructor
                  · intro hfalse
                    cases hfalse
                  · rintro ⟨s2, rest2, heq, -⟩
                    simp at heq
          | name id =>
              simp only [hasDocModel]
              constructor
              · intro hfalse; cases hfalse
              · rintro ⟨s2, rest2, heq, -⟩; simp at heq
          | attr o f =>
              simp only [hasDocModel]
              constructor
              · intro hfalse; cases hfalse
              · rintro ⟨s2, rest2, heq, -⟩; simp at heq
          | call f a =>
              simp only [hasDocModel]
              constructor
              · intro hfalse; cases hfalse
              · rintro ⟨s2, rest2, heq, -⟩; simp at heq
      | ret e =>
          simp only [hasDocModel]
          constructor
          · intro hfalse; cases hfalse
          · rintro ⟨s2, rest2, heq, -⟩; simp at heq
      | passStmt =>
          simp only [hasDocModel]
          constructor
          · intro hfalse; cases hfalse
          · rintro ⟨s2, rest2, heq, -⟩; simp at heq
      | funcDef n2 args2 body2 =>
          simp only [hasDocModel]
          constructor
          · intro hfalse; cases hfalse
          · rintro ⟨s2, rest2, heq, -⟩; simp at heq
      | classDef n2 body2 =>
          simp only [hasDocModel]
          constructor
          · intro hfalse; cases hfalse
          · rintro ⟨s2, rest2, heq, -⟩; simp at heq

/-! ## The claims -/

/-- C1, counterexample: a directory tree holding one valid file and one
malformed file does not build — `build_index` propagates the `SyntaxError`
(there is no handler around `ast.parse`), so it does not complete and the
index is never produced, contradicting the claim that the build never fails
because one file is unparseable. -/
theorem c1_counterexample :
    goodFile.content.isSome = true ∧ badFile.content = none ∧
    buildIndex none [goodFile, badFile] = .error "proj/bad.py" :=
  ⟨rfl, rfl, rfl⟩

/-- C1, amended: `build_index` completes exactly when every non-skipped `.py`
file parses; one malformed eligible file makes the whole build fail (the parse
error propagates out of the walk), so the remaining files are not indexed. -/
theorem c1_amended_build_fails_on_parse_error (extra : Option (List String))
    (fs : List PyFile) :
    (∃ e, buildIndex extra fs = .error e) ↔
      ∃ f ∈ fs, skipFile (mkFoldersToIgnore extra) f = false ∧
        f.content = none :=
  buildIndexAux_error_iff (mkFoldersToIgnore extra) fs []

/-- C2, code evaluated at the failing input: two files in different
directories each defining `def shared(): pass`.  The index stores unparsed
text in a set, so the two identical definitions collapse into a single entry
with no file of origin, and `warn` reports no duplicate — against the claim
(and `doc_writer.py`, which reads `v.has_docstring` off index values) that
entries are `SourceCode` records distinguished by `file_path`. -/
theorem c2_code_eval :
    fileShared1.root ≠ fileShared2.root ∧
    fileShared1.content = some [sharedDef] ∧
    fileShared2.content = some [sharedDef] ∧
    buildIndex none [fileShared1, fileShared2] = .ok [("shared", [sharedDef])] ∧
    (lookupIndex [("shared", [sharedDef])] "shared").getD [] = [sharedDef] ∧
    warnDuplicates [("shared", [sharedDef])] = [] := by
  refine ⟨?_, rfl, rfl, rfl, rfl, rfl⟩
  decide

/-- C3, counterexample: `def f(): 5; return 1` — the first body statement is
a constant but not a string literal, yet `clean_function` does not leave the
definition unchanged: it pops the `5` (the code tests `ast.Constant`, not a
string). -/
theorem c3_counterexample :
    specHasLeadingDocString leadingIntDef = false ∧
    cleanFunction leadingIntDef ≠ leadingIntDef := by
  refine ⟨rfl, ?_⟩
  intro h
  have h2 : stmtBodyLen (cleanFunction leadingIntDef) = 1 := rfl
  rw [h] at h2
  have h3 : stmtBodyLen leadingIntDef = 2 := rfl
  rw [h3] at h2
  cases h2

/-- C3, amended: for function and class definitions alike, the `has_doc` flag
(modelled from the spec — the recording code is absent from `src/`) is true
exactly when the first body statement is a bare string literal of trimmed
length greater than one; the normalizer removes the first body statement
whenever it is a bare constant expression of any kind — string literal or
not — for classes as for functions; `clean_function` leaves a function
unchanged exactly when its first body statement is not a constant expression,
while `clean_class` (which also sweeps the class members) returns a class
unchanged when nothing in it, at any depth, still carries a leading
constant. -/
theorem c3_amended_doc_flag_and_pop (n : String) (args : List Arg)
    (body : List Stmt) :
    (hasDocModel (.funcDef n args body) = true ↔
      ∃ s rest, body = .expr (.const (.str s)) :: rest ∧
        1 < (pyTrim s).length) ∧
    (hasDocModel (.classDef n body) = true ↔
      ∃ s rest, body = .expr (.const (.str s)) :: rest ∧
        1 < (pyTrim s).length) ∧
    (headNotConst body = true →
      cleanFunction (.funcDef n args body) = .funcDef n args body) ∧
    (∀ c rest, body = .expr (.const c) :: rest →
      cleanFunction (.funcDef n args body) = .funcDef n args rest) ∧
    (∀ c rest, body = .expr (.const c) :: rest →
      cleanClass (.classDef n body) = .classDef n (cleanClassChildren rest)) ∧
    (fullyCleanStmt (.classDef n body) = true →
      cleanClass (.classDef n body) = .classDef n body) := by
  refine ⟨hasDocModel_funcDef_iff n args body, hasDocModel_classDef_iff n body,
    cleanFunction_of_headNotConst n args body, ?_, ?_,
    fun h => cleanClass_fullyClean (.classDef n body) h⟩
  · rintro c rest rfl
    rfl
  · rintro c rest rfl
    rw [cleanClass_classDef]
    rfl

/-- C3 witness: the amended statement applied at concrete inputs — a function
with no leading constant is unchanged; one with a docstring has it removed and
the modelled flag true; and the spec scenario class (docstring `Example.`) has
its flag true and its docstring removed by `clean_class`. -/
theorem c3_witness :
    cleanFunction (.funcDef "f" [] [.ret none]) = .funcDef "f" [] [.ret none] ∧
    cleanFunction (.funcDef "f" [] [.expr (.const (.str "docstring")), .ret none]) =
      .funcDef "f" [] [.ret none] ∧
    hasDocModel (.funcDef "f" [] [.expr (.const (.str "docstring")), .ret none]) =
      true ∧
    hasDocModel (.classDef "Foo" [.expr (.const (.str "Example.")), .passStmt]) =
      true ∧
    cleanClass (.classDef "Foo" [.expr (.const (.str "Example.")), .passStmt]) =
      .classDef "Foo" [.passStmt] :=
  ⟨(c3_amended_doc_flag_and_pop "f" [] [.ret none]).2.2.1 rfl,
   (c3_amended_doc_flag_and_pop "f" []
      [.expr (.const (.str "docstring")), .ret none]).2.2.2.1
      (.str "docstring") [.ret none] rfl,
   (c3_amended_doc_flag_and_pop "f" []
      [.expr (.const (.str "docstring")), .ret none]).1.mpr
      ⟨"docstring", [.ret none], rfl, by decide⟩,
   (c3_amended_doc_flag_and_pop "Foo" []
      [.expr (.const (.str "Example.")), .passStmt]).2.1.mpr
      ⟨"Example.", [.passStmt], rfl, by decide⟩,
   (c3_amended_doc_flag_and_pop "Foo" []
      [.expr (.const (.str "Example.")), .passStmt]).2.2.2.2.1
      (.str "Example.") [.passStmt] rfl⟩

/-- C4, counterexample: in the built index of a file holding
`def Helper(): return 1` and `def f(x: Helper): "doc"`, the name `f` is a key
and `Helper` is both its parameter-annotation name and an index key, yet
`get_dependencies("f")` returns no list at all: the stored text of `f` is
`def f(x: Helper):` (the docstring pop emptied the body) and the re-parse
`ast.parse(list(func)[0])` raises `IndentationError` out of the function. -/
theorem c4_counterexample :
    buildIndex none [fileAnn] = .ok annIdx ∧
    getArgs fAnnStored = some ["Helper"] ∧
    lookupIndex annIdx "Helper" = some [helperUpDef] ∧
    getDependencies annIdx "f" = .parseError ∧
    ¬ ∃ l, getDependencies annIdx "f" = .deps l := by
  refine ⟨rfl, rfl, rfl, rfl, ?_⟩
  rintro ⟨l, hl⟩
  exact DepResult.noConfusion (show DepResult.parseError = .deps l from hl)

/-- C4, amended: for an indexed name whose one re-parsed stored definition
actually re-parses (no definition inside it lost its whole body to the
docstring pop), `get_dependencies` appends, for every chained identifier (call
target or bare-name parameter annotation of the stored definition) that is
itself an index key, the stored text of every entry under that key, truncated;
when the stored text does not re-parse, the parse error propagates instead.
On the concrete two-function directory the result is exactly the normalized
source of `helper`. -/
theorem c4_get_dependencies (idx : Index) (funcName : String) (d : Stmt)
    (rest : List Stmt) (h : lookupIndex idx funcName = some (d :: rest))
    (hrp : reparses d = true) :
    (∀ dep ∈ getCallTree d ++ (getArgs d).getD [], ∀ vs,
      lookupIndex idx dep = some vs → ∀ v ∈ vs,
        truncate3000 (unparseTop v) ∈ depsListOf (getDependencies idx funcName)) ∧
    (buildIndex none [fileA] = .ok exIdx ∧
      getDependencies exIdx "main" = .deps ["def helper():\n    return 1"] ∧
      unparseTop helperDef = "def helper():\n    return 1") := by
  refine ⟨?_, rfl, rfl, rfl⟩
  intro dep hdep vs hvs v hv
  exact getDependencies_mem_of_dep idx funcName d rest h hrp dep hdep vs hvs v hv

/-- C4 witness: the theorem applied to the built helper/main index. -/
theorem c4_witness :
    truncate3000 (unparseTop helperDef) ∈ depsListOf (getDependencies exIdx "main") :=
  (c4_get_dependencies exIdx "main" mainDef [] rfl rfl).1 "helper" (by decide)
    [helperDef] rfl helperDef (List.mem_cons_self _ _)

/-- C5, counterexample: `def g(): 6; return` has no leading documentation
string (its first statement is a number, not a string literal), yet
normalizing it does not return it unchanged — `clean_function` pops the
leading `6`. -/
theorem c5_counterexample :
    specHasLeadingDocString leadingIntDefB = false ∧
    cleanFunction leadingIntDefB ≠ leadingIntDefB := by
  refine ⟨rfl, ?_⟩
  intro h
  have h2 : stmtBodyLen (cleanFunction leadingIntDefB) = 1 := rfl
  rw [h] at h2
  have h3 : stmtBodyLen leadingIntDefB = 2 := rfl
  rw [h3] at h2
  cases h2

/-- C5, amended: a fully normalized definition — one in which no definition
at any depth still begins with a bare constant expression — is a fixed point
of both cleaners, and its modelled `has_doc` is false. -/
theorem c5_amended_idempotence (d : Stmt) (h : fullyCleanStmt d = true) :
    cleanFunction d = d ∧ cleanClass d = d ∧ hasDocModel d = false := by
  refine ⟨?_, cleanClass_fullyClean d h, ?_⟩
  · cases d with
    | funcDef n args body =>
        have h2 : headNotConst body = true := by
          simp only [fullyCleanStmt, Bool.and_eq_true] at h
          exact h.1
        exact cleanFunction_of_headNotConst n args body h2
    | classDef n body => rfl
    | expr e => rfl
    | ret e => rfl
    | passStmt => rfl
  · cases d with
    | funcDef n args body =>
        have h2 : headNotConst body = true := by
          simp only [fullyCleanStmt, Bool.and_eq_true] at h
          exact h.1
        cases body with
        | nil => rfl
        | cons s0 r =>
            cases s0 with
            | expr e =>
                cases e with
                | const c => simp [headNotConst] at h2
                | name id => rfl
                | attr o f => rfl
                | call f a => rfl
            | ret e => rfl
            | passStmt => rfl
            | funcDef n2 a2 b2 => rfl
            | classDef n2 b2 => rfl
    | classDef n body =>
        have h2 : headNotConst body = true := by
          simp only [fullyCleanStmt, Bool.and_eq_true] at h
          exact h.1
        cases body with
        | nil => rfl
        | cons s0 r =>
            cases s0 with
            | expr e =>
                cases e with
                | const c => simp [headNotConst] at h2
                | name id => rfl
                | attr o f => rfl
                | call f a => rfl
            | ret e => rfl
            | passStmt => rfl
            | funcDef n2 a2 b2 => rfl
            | classDef n2 b2 => rfl
    | expr e => rfl
    | ret e => rfl
    | passStmt => rfl

/-- C5 witness: the amended statement at `def helper(): return 1`. -/
theorem c5_witness :
    cleanFunction helperDef = helperDef ∧ cleanClass helperDef = helperDef ∧
    hasDocModel helperDef = false :=
  c5_amended_idempotence helperDef rfl

/-- C6, counterexample: one transformer visit of a module whose definition
carries a leading documentation string does not leave the caller's tree
intact — `clean_function` executes `node.body.pop(0)` on the caller's own
node, so the tree differs from the original (and the further `ast.walk`
re-visits of `build_index` only pop more, never restore). -/
theorem c6_counterexample :
    specHasLeadingDocString
      (.funcDef "f" [] [.expr (.const (.str "docstring")), .ret none]) = true ∧
    (visitBody docModule []).1 ≠ docModule := by
  refine ⟨rfl, ?_⟩
  intro h
  have h2 : ((visitBody docModule []).1.map stmtBodyLen) = [1] := rfl
  rw [h] at h2
  have h3 : (docModule.map stmtBodyLen) = [2] := rfl
  rw [h3] at h2
  cases h2

/-- C6, amended: the normalizer does not operate on an independent copy —
`clean_function` returns its own argument with the leading constant popped
from the body, and by the in-place `node.body.pop(0)` that is what the
caller's node now holds, so for every definition with a leading constant the
caller's definition differs from the original and its documentation string is
gone; concretely, one transformer visit of the docstring module leaves the
caller's tree without the docstring (the unused `deepcopy` import
notwithstanding, no copy is ever made, and the `ast.walk` re-visits of
`build_index` only pop further, never restore). -/
theorem c6_amended_in_place (n : String) (args : List Arg) (c : Const)
    (rest : List Stmt) :
    cleanFunction (.funcDef n args (.expr (.const c) :: rest)) =
      .funcDef n args rest ∧
    cleanFunction (.funcDef n args (.expr (.const c) :: rest)) ≠
      .funcDef n args (.expr (.const c) :: rest) ∧
    (visitBody docModule []).1 = [.funcDef "f" [] [.ret none]] := by
  refine ⟨rfl, ?_, rfl⟩
  intro h
  have h2 : Stmt.funcDef n args rest =
      .funcDef n args (.expr (.const c) :: rest) := h
  injection h2 with h3 h4 h5
  exact List.cons_ne_self _ _ h5.symm

/-- C7, counterexample: in the built index of a file holding only
`def f(): "docstring"`, the name `f` is a key and its stored definition has no
call targets and no annotated parameters, yet `get_dependencies("f")` does not
return the empty list: the stored text `def f():` does not re-parse, so the
`IndentationError` of `ast.parse` propagates out of the function instead. -/
theorem c7_counterexample :
    buildIndex none [fileDocOnly] = .ok docOnlyIdx ∧
    getCallTree docOnlyStored ++ (getArgs docOnlyStored).getD [] = [] ∧
    getDependencies docOnlyIdx "f" = .parseError ∧
    ¬ ∃ l, getDependencies docOnlyIdx "f" = .deps l := by
  refine ⟨rfl, rfl, rfl, ?_⟩
  rintro ⟨l, hl⟩
  exact DepResult.noConfusion (show DepResult.parseError = .deps l from hl)

/-- C7, amended: against a built index, `get_dependencies` returns the
not-found signal (`None`) exactly for names that are not index keys; for an
indexed name it first re-parses the stored definition: when that succeeds and
none of the call targets or parameter-annotation names is an index key it
returns the empty list — distinguishable from not-found — and when the stored
definition does not re-parse (its body was emptied by the docstring pop) the
parse error propagates and nothing is returned. -/
theorem c7_not_found_vs_empty (extra : Option (List String)) (fs : List PyFile)
    (idx : Index) (h : buildIndex extra fs = .ok idx) (funcName : String) :
    (getDependencies idx funcName = .notFound ↔
      lookupIndex idx funcName = none) ∧
    (∀ d rest, lookupIndex idx funcName = some (d :: rest) →
      reparses d = true →
      (∀ dep ∈ getCallTree d ++ (getArgs d).getD [],
        lookupIndex idx dep = none) →
      getDependencies idx funcName = .deps []) ∧
    (∀ d rest, lookupIndex idx funcName = some (d :: rest) →
      reparses d = false →
      getDependencies idx funcName = .parseError) := by
  have hwf := buildIndex_wf extra fs idx h
  refine ⟨⟨?_, ?_⟩, ?_, ?_⟩
  · intro hnf
    cases hl : lookupIndex idx funcName with
    | none => rfl
    | some vs =>
        cases vs with
        | nil =>
            obtain ⟨k, hk⟩ := lookupIndex_mem idx funcName [] hl
            exact absurd rfl (hwf (k, []) hk)
        | cons d rest =>
            rw [getDependencies_eq_of_lookup idx funcName d rest hl] at hnf
            by_cases hr : reparses d = true
            · rw [if_pos hr] at hnf
              cases hnf
            · rw [if_neg hr] at hnf
              cases hnf
  · intro hl
    unfold getDependencies
    rw [hl]
  · intro d rest hl hrp hdeps
    rw [getDependencies_eq_of_lookup idx funcName d rest hl, if_pos hrp,
      flatMap_nil_of_lookup_none idx _ hdeps]
    rfl
  · intro d rest hl hrp
    rw [getDependencies_eq_of_lookup idx funcName d rest hl,
      if_neg (by rw [hrp]; intro hc; cases hc)]

/-- C7 witness: the theorem applied to the built one-function index — an
absent name gives `None`, a dependency-free present name whose stored text
re-parses gives `[]`. -/
theorem c7_witness :
    getDependencies [("alone", [aloneDef])] "nonexistent_symbol" = .notFound ∧
    getDependencies [("alone", [aloneDef])] "alone" = .deps [] := by
  have h := c7_not_found_vs_empty none [fileAlone] [("alone", [aloneDef])] rfl
  have hnil : getCallTree aloneDef ++ (getArgs aloneDef).getD [] = [] := rfl
  exact ⟨(h "nonexistent_symbol").1.mpr rfl,
    (h "alone").2.1 aloneDef [] rfl rfl
      (fun dep hdep => by rw [hnil] at hdep; cases hdep)⟩

/-- C8: every entry of a `get_dependencies` result has length at most 3000
characters — each appended source text passes through the hard per-entry
cutoff `x[:3000]`. -/
theorem c8_truncation_bound (idx : Index) (funcName : String)
    (deps : List String) (h : getDependencies idx funcName = .deps deps) :
    ∀ s ∈ deps, s.length ≤ 3000 := by
  intro s hs
  cases hl : lookupIndex idx funcName with
  | none =>
      unfold getDependencies at h
      rw [hl] at h
      cases h
  | some vs =>
      cases vs with
      | nil =>
          unfold getDependencies at h
          rw [hl] at h
          cases h
      | cons d rest =>
          rw [getDependencies_eq_of_lookup idx funcName d rest hl] at h
          by_cases hr : reparses d = true
          · rw [if_pos hr] at h
            have hdeps : deps = (((getCallTree d ++ (getArgs d).getD []).flatMap
                (fun dep => match lookupIndex idx dep with
                  | some vs2 => vs2.map unparseTop
                  | none => [])).map truncate3000) := by
              cases h
              rfl
            rw [hdeps] at hs
            obtain ⟨x, -, rfl⟩ := List.mem_map.mp hs
            show (String.mk (x.data.take 3000)).length ≤ 3000
            have : (String.mk (x.data.take 3000)).length = (x.data.take 3000).length := rfl
            rw [this, List.length_take]
            exact min_le_left _ _
          · rw [if_neg hr] at h
            cases h

/-- C8 witness: the bound at the concrete recursive-function index. -/
theorem c8_witness :
    ("def loop():\n    return loop()" : String).length ≤ 3000 :=
  c8_truncation_bound loopIdx "loop" ["def loop():\n    return loop()"] rfl
    "def loop():\n    return loop()" (List.mem_cons_self _ _)

/-- C10, counterexample: the built index of a recursive `outer` holding a
docstring-only nested `inner` — `outer` is indexed and calls its own name,
yet `get_dependencies("outer")` does not return a list containing its source:
the stored text of `outer` contains the empty-bodied `inner`, so the re-parse
raises `IndentationError` out of the function. -/
theorem c10_counterexample :
    buildIndex none [fileOuter] = .ok outerIdx ∧
    "outer" ∈ getCallTree outerStored ∧
    getDependencies outerIdx "outer" = .parseError ∧
    ¬ ∃ l, getDependencies outerIdx "outer" = .deps l := by
  refine ⟨rfl, by decide, rfl, ?_⟩
  rintro ⟨l, hl⟩
  exact DepResult.noConfusion (show DepResult.parseError = .deps l from hl)

/-- C9: files under a directory whose path contains any ignored-folder marker
are invisible to the build — filtering them away leaves the built index
unchanged, for every ignore list the constructor can produce; and the two
default markers are always in the ignore list, with caller-supplied folders
appended rather than replacing them. -/
theorem c9_ignored_folders (extra : Option (List String)) (fs : List PyFile) :
    buildIndex extra fs =
      buildIndex extra
        (fs.filter (fun f => !markerHit (mkFoldersToIgnore extra) f.root)) ∧
    ".venv" ∈ mkFoldersToIgnore extra ∧
    ".mypy_cache" ∈ mkFoldersToIgnore extra := by
  refine ⟨buildIndexAux_filter_markers _ fs [], ?_, ?_⟩
  · cases extra <;> simp [mkFoldersToIgnore]
  · cases extra <;> simp [mkFoldersToIgnore]

/-- C10, amended: when an indexed definition calls its own name and its
stored text re-parses, `get_dependencies` includes the stored source of every
entry under that very name — the queried symbol is not excluded from its own
results; when the stored text does not re-parse, the parse error propagates
instead.  Concretely, the recursive `loop` returns its own text. -/
theorem c10_self_dependency (idx : Index) (funcName : String) (d : Stmt)
    (rest : List Stmt) (h : lookupIndex idx funcName = some (d :: rest))
    (hrp : reparses d = true) (hself : funcName ∈ getCallTree d) :
    (∀ v ∈ d :: rest,
      truncate3000 (unparseTop v) ∈ depsListOf (getDependencies idx funcName)) ∧
    getDependencies loopIdx "loop" = .deps ["def loop():\n    return loop()"] := by
  refine ⟨?_, rfl⟩
  intro v hv
  exact getDependencies_mem_of_dep idx funcName d rest h hrp funcName
    (List.mem_append_left _ hself) (d :: rest) h v hv

/-- C10 witness: the theorem applied to the recursive `loop` index. -/
theorem c10_witness :
    truncate3000 (unparseTop loopDef) ∈ depsListOf (getDependencies loopIdx "loop") :=
  (c10_self_dependency loopIdx "loop" loopDef [] rfl rfl (by decide)).1 loopDef
    (List.mem_cons_self _ _)

end Pythion
